import Mathlib

/- Formal model of the zone reconciliation logic of main.py (a WAPI DNS zone
tool).  Python strings are modelled as Lean String values, Python lists as
List, and Python dicts with their insertion-order semantics as association
lists.  Each definition cites the main.py lines it embeds. -/

/-- Whitespace test matching the default separator set of Python str.split()
and str.strip() for the characters that can occur in zone-file lines. -/
def isWsChar (c : Char) : Bool :=
  c == ' ' || c == '\t' || c == '\n' || c == '\r' || c == '\x0b' || c == '\x0c'

/-- Python line.strip() (main.py line 80). -/
def pyStrip (s : String) : String :=
  ⟨((s.data.dropWhile isWsChar).reverse.dropWhile isWsChar).reverse⟩

/-- Python s.rstrip(".") : removes every trailing dot.  Used for the origin
directive (line 88), rdata (lines 101, 285, 390) and raw names (line 107). -/
def pyRstripDot (s : String) : String :=
  ⟨(s.data.reverse.dropWhile (fun c => c == '.')).reverse⟩

/-- Python s.upper() for the ASCII content of zone files (lines 85, 92, 97). -/
def pyUpper (s : String) : String := ⟨s.data.map Char.toUpper⟩

/-- Python s.startswith(t) (lines 81, 85, 92). -/
def strStarts (s t : String) : Bool := t.data.isPrefixOf s.data

/-- Python s.endswith(t) (lines 106, 110). -/
def strEndsWith (s t : String) : Bool := t.data.reverse.isPrefixOf s.data.reverse

/-- Python s[:n] for a non-negative slice bound (line 111). -/
def strTake (s : String) (n : Nat) : String := ⟨s.data.take n⟩

/-- Accumulator loop for whitespace splitting. -/
def chWordsAux : List Char → List Char → List (List Char)
  | [], acc => if acc.isEmpty then [] else [acc.reverse]
  | c :: cs, acc =>
      if isWsChar c then
        if acc.isEmpty then chWordsAux cs [] else acc.reverse :: chWordsAux cs []
      else chWordsAux cs (c :: acc)

/-- Python line.split() with no argument: split on runs of whitespace and
return no empty fields (main.py lines 86, 95). -/
def splitWs (s : String) : List String := (chWordsAux s.data []).map (fun l => ⟨l⟩)

/-- One canonical record as built by parse_zone_file and by the remote-record
normalisation: the 4-tuple (name, ttl, type, rdata) of main.py lines 117
and 286. -/
abbrev Rec4 := String × String × String × String

/-- Resolution of a fully-qualified (trailing-dot) raw name whose trailing
dots were already stripped, against the working origin (main.py lines
107-113). -/
def fqdnResolve (origin bare : String) : String :=
  if bare = origin then "@"
  else if strEndsWith bare ("." ++ origin) then
    strTake bare (bare.length - (origin.length + 1))
  else bare

/-- Name normalisation for one record line (main.py lines 103-115). -/
def resolveName (origin rawName : String) : String :=
  if rawName = "@" then "@"
  else if strEndsWith rawName "." then fqdnResolve origin (pyRstripDot rawName)
  else rawName

/-- One stripped non-directive line (main.py lines 95-117): at least five
whitespace-separated fields whose third field upper-cases to IN, otherwise
the line is silently dropped. -/
def parseRecordLine (origin line : String) : Option Rec4 :=
  match splitWs line with
  | rawName :: ttl :: cls :: rtype :: r0 :: rest =>
      if pyUpper cls = "IN" then
        some (resolveName origin rawName, ttl, rtype,
              pyRstripDot (String.intercalate " " (r0 :: rest)))
      else none
  | _ => none

/-- Line loop of parse_zone_file (main.py lines 78-118), threading the working
origin through $ORIGIN directives and skipping blanks, comments and $TTL. -/
def parseZoneAux (origin : String) : List String → List Rec4
  | [] => []
  | l :: ls =>
      let line := pyStrip l
      if line.data.isEmpty || strStarts line ";" then parseZoneAux origin ls
      else if strStarts (pyUpper line) "$ORIGIN" then
        match splitWs line with
        | _ :: p1 :: _ => parseZoneAux (pyRstripDot p1) ls
        | _ => parseZoneAux origin ls
      else if strStarts (pyUpper line) "$TTL" then parseZoneAux origin ls
      else
        match parseRecordLine origin line with
        | some r => r :: parseZoneAux origin ls
        | none => parseZoneAux origin ls

/-- parse_zone_file (main.py lines 69-118).  The fallback origin is the file
stem (path.stem, line 77) and the lines are the splitlines of the text. -/
def parse_zone_file (stem : String) (lines : List String) : List Rec4 :=
  parseZoneAux stem lines

/- ----- Python dicts as insertion-ordered association lists ----- -/

/-- Python dict lookup m[k] / k in m: the single binding of a key.  The maps
built below never carry a key twice, so taking the first binding is exact. -/
def alookup {K V : Type} [DecidableEq K] : List (K × V) → K → Option V
  | [], _ => none
  | (k, v) :: m, q => if q = k then some v else alookup m q

/-- Python dict assignment m[k] = v: replace the value in place if the key is
present, otherwise append the binding (insertion-order semantics). -/
def dinsert {K V : Type} [DecidableEq K] : List (K × V) → K → V → List (K × V)
  | [], k, v => [(k, v)]
  | (k0, v0) :: m, k, v =>
      if k = k0 then (k0, v) :: m else (k0, v0) :: dinsert m k v

/-- Keys of an association list, in order. -/
def keysOf {K V : Type} (m : List (K × V)) : List K := m.map Prod.fst

/-- Raw remote record: one row object of a dns-rows-list response, with the
fields the code reads (main.py lines 282-285 and 386-390).  A missing field
is none; JSON string values are carried as strings. -/
structure RawRow where
  name : Option String
  ttl : Option String
  rdtype : Option String
  rdata : Option String
  ID : Option String
deriving DecidableEq

/-- Python (r.get("name") or "@"): missing or empty name becomes the apex
alias (main.py lines 282 and 386). -/
def pyOrAt : Option String → String
  | none => "@"
  | some s => if s = "" then "@" else s

/-- Normalisation of one remote row into the canonical 4-tuple, as done by
compare_zone_ns (main.py lines 282-286): name defaulted to "@", ttl as its
string form, type defaulted to "", rdata with trailing dots stripped. -/
def normRemote (r : RawRow) : Rec4 :=
  (pyOrAt r.name, r.ttl.getD "", r.rdtype.getD "", pyRstripDot (r.rdata.getD ""))

/-- Shape of the row collection inside a dns-rows-list response: the value
raw = data.get("row", data) can be a list, a keyed mapping, or anything
else (main.py lines 269-275 and 375-381). -/
inductive RowField (α : Type) : Type
  | list (l : List α)
  | map (m : List (String × α))
  | other
deriving DecidableEq

/-- Shape normalisation shared by compare_zone_ns (lines 270-275) and
sync_zone_records (lines 376-381): a dict contributes its values in order,
a list is used as is, and any other shape yields no rows. -/
def getRows {α : Type} : RowField α → List α
  | .list l => l
  | .map m => m.map Prod.snd
  | .other => []

/- ----- The Differ: compare_zone_ns, main.py lines 289-308 ----- -/

/-- Natural (lexicographic) ordering on record tuples: name, then ttl, then
type, then rdata, each string compared lexicographically by character code
point, mirroring Python tuple comparison used by sorted() on line 292. -/
def recLe (a b : Rec4) : Prop :=
  a.1.data < b.1.data ∨ (a.1 = b.1 ∧ (a.2.1.data < b.2.1.data ∨ (a.2.1 = b.2.1 ∧
    (a.2.2.1.data < b.2.2.1.data ∨ (a.2.2.1 = b.2.2.1 ∧
      a.2.2.2.data ≤ b.2.2.2.data)))))

instance : DecidableRel recLe := fun a b =>
  inferInstanceAs (Decidable (a.1.data < b.1.data ∨ (a.1 = b.1 ∧
    (a.2.1.data < b.2.1.data ∨ (a.2.1 = b.2.1 ∧
      (a.2.2.1.data < b.2.2.1.data ∨ (a.2.2.1 = b.2.2.1 ∧
        a.2.2.2.data ≤ b.2.2.2.data)))))))

instance : IsTotal Rec4 recLe where
  total a b := by
    unfold recLe
    rcases lt_trichotomy a.1.data b.1.data with h | h | h
    · exact Or.inl (Or.inl h)
    · have e : a.1 = b.1 := congrArg String.mk h
      rcases lt_trichotomy a.2.1.data b.2.1.data with h2 | h2 | h2
      · exact Or.inl (Or.inr ⟨e, Or.inl h2⟩)
      · have e2 : a.2.1 = b.2.1 := congrArg String.mk h2
        rcases lt_trichotomy a.2.2.1.data b.2.2.1.data with h3 | h3 | h3
        · exact Or.inl (Or.inr ⟨e, Or.inr ⟨e2, Or.inl h3⟩⟩)
        · have e3 : a.2.2.1 = b.2.2.1 := congrArg String.mk h3
          rcases le_total a.2.2.2.data b.2.2.2.data with h4 | h4
          · exact Or.inl (Or.inr ⟨e, Or.inr ⟨e2, Or.inr ⟨e3, h4⟩⟩⟩)
          · exact Or.inr (Or.inr ⟨e.symm, Or.inr ⟨e2.symm, Or.inr ⟨e3.symm, h4⟩⟩⟩)
        · exact Or.inr (Or.inr ⟨e.symm, Or.inr ⟨e2.symm, Or.inl h3⟩⟩)
      · exact Or.inr (Or.inr ⟨e.symm, Or.inl h2⟩)
    · exact Or.inr (Or.inl h)

instance : IsTrans Rec4 recLe where
  trans a b c hab hbc := by
    unfold recLe at *
    rcases hab with h1 | ⟨e1, hab⟩
    · rcases hbc with h2 | ⟨e2, _⟩
      · exact Or.inl (h1.trans h2)
      · exact Or.inl (e2 ▸ h1)
    · rcases hbc with h2 | ⟨e2, hbc⟩
      · exact Or.inl (e1 ▸ h2)
      · refine Or.inr ⟨e1.trans e2, ?_⟩
        rcases hab with h1 | ⟨f1, hab⟩
        · rcases hbc with h2 | ⟨f2, _⟩
          · exact Or.inl (h1.trans h2)
          · exact Or.inl (f2 ▸ h1)
        · rcases hbc with h2 | ⟨f2, hbc⟩
          · exact Or.inl (f1 ▸ h2)
          · refine Or.inr ⟨f1.trans f2, ?_⟩
            rcases hab with h1 | ⟨g1, hab⟩
            · rcases hbc with h2 | ⟨g2, _⟩
              · exact Or.inl (h1.trans h2)
              · exact Or.inl (g2 ▸ h1)
            · rcases hbc with h2 | ⟨g2, hbc⟩
              · exact Or.inl (g1 ▸ h2)
              · exact Or.inr ⟨g1.trans g2, hab.trans hbc⟩

/-- One row of the comparison table (main.py lines 300-308). -/
structure ResultRow where
  domain : String
  name : String
  ttl : String
  rtype : String
  rdata : String
  status : String
  note : String
deriving DecidableEq

/-- The tuple a result row was built from. -/
def rowTuple (r : ResultRow) : Rec4 := (r.name, r.ttl, r.rtype, r.rdata)

/-- Status classification of one tuple against the two sets (main.py lines
294-299). -/
def classifyStatus (zone wapi : List Rec4) (r : Rec4) : String × String :=
  if r ∈ zone ∧ r ∈ wapi then ("matching", "")
  else if r ∈ zone then ("missing", "missing in WAPI")
  else ("difference", "missing in zone file")

/-- The per-domain block of the Differ (main.py lines 289-308): the sorted
deduplicated union of both record sets, each with its classification.
sorted(set_zone | set_wapi) is modelled as a sort of the deduplicated
concatenation; on duplicate-free input every sort agrees. -/
def compare_zone_rows (domain : String) (zone wapi : List Rec4) : List ResultRow :=
  (List.insertionSort recLe ((zone ++ wapi).dedup)).map (fun r =>
    { domain := domain, name := r.1, ttl := r.2.1, rtype := r.2.2.1,
      rdata := r.2.2.2,
      status := (classifyStatus zone wapi r).1,
      note := (classifyStatus zone wapi r).2 })

/- ----- The Synchronizer: sync_zone_records, main.py lines 327-428 ----- -/

/-- A WAPI response code: the JSON value under response.code, which the
provider may deliver as a string or as a number.  sync_zone_records itself
compares it both ways: with the string "1000" alone for dns-domains-list
(line 337) and with ("1000", 1000) for dns-rows-list (line 370). -/
inductive Code : Type
  | s (v : String)
  | i (n : Int)
deriving DecidableEq

/-- Success test applied to the dns-rows-list response code
(main.py line 370). -/
def rowsOk (c : Code) : Prop := c = Code.s "1000" ∨ c = Code.i 1000

instance : DecidablePred rowsOk := fun c => by unfold rowsOk; exact inferInstance

/-- One entry of the dns-domains-list response data, as read by line 338-339:
an object whose "name" field is accessed directly. -/
structure DomainRec where
  name : String
deriving DecidableEq

/-- A dns-rows-list response: its code and the resolved row collection
raw = response.data.get("row", response.data) (main.py lines 369-381). -/
structure RowsResp where
  code : Code
  rows : RowField RawRow
deriving DecidableEq

/-- One directory entry of the zone directory: file stem, file suffix and the
lines of the file (main.py lines 342-353). -/
structure FileEnt where
  stem : String
  suffix : String
  lines : List String
deriving DecidableEq

/-- The payload dict of a mutating WAPI request, in insertion order; a value
is none when the code passes a JSON null (a missing row ID). -/
abbrev Payload := List (String × Option String)

/-- The dns-row-add payload built on main.py lines 400-404. -/
def addPayload (domain nm ttl rtype rdata : String) : Payload :=
  [("domain", some domain), ("name", some nm), ("ttl", some ttl),
   ("type", some rtype), ("rdata", some rdata)]

/-- The dns-row-update payload built on main.py lines 411-414. -/
def updPayload (domain : String) (rowId : Option String) (ttl rdata : String) :
    Payload :=
  [("domain", some domain), ("row_id", rowId), ("ttl", some ttl),
   ("rdata", some rdata)]

/-- A remote call issued by sync_zone_records, identified by its command and
payload (the request side of call_wapi). -/
inductive WapiCall : Type
  | domainsList
  | domainAdd (name : String)
  | rowsList (domain : String)
  | rowAdd (payload : Payload)
  | rowUpdate (payload : Payload)
  | rowDelete (payload : Payload)
deriving DecidableEq

/-- Operator-visible output of sync_zone_records, one constructor per print
statement of main.py lines 344-428. -/
inductive OutEv : Type
  | ignoredFile (name : String)
  | processing (domain : String)
  | localCount (n : Nat)
  | addingDomain (domain : String)
  | rowsError (domain : String) (resp : RowsResp)
  | wapiCount (n : Nat)
  | addingRecord (nm rtype : String)
  | updatingRecord (nm rtype : String)
  | disabledDelete (nm rtype : String)
  | syncComplete
deriving DecidableEq

/-- One event of a run: a remote call being issued or a line being printed. -/
inductive Ev : Type
  | call (c : WapiCall)
  | out (o : OutEv)
deriving DecidableEq

/-- The environment of one run: the zone directory listing (already in the
sorted order of line 342) and the responses of the provider.  The responses to
dns-row-add and dns-row-update are received by call_wapi but discarded by
sync_zone_records (lines 399 and 410 use no return value). -/
structure Env where
  domainsCode : Code
  domainsRecs : List DomainRec
  rowsResp : String → RowsResp
  addResp : Payload → Code
  updResp : Payload → Code
  files : List FileEnt

/-- The set of DNS domain names derived from the dns-domains-list response
(main.py lines 336-339): populated only when the response code is exactly
the string "1000". -/
def dnsDomains (env : Env) : List String :=
  if env.domainsCode = Code.s "1000" then env.domainsRecs.map DomainRec.name
  else []

/-- zone_map (main.py lines 351-354): fold the parsed records into a dict
keyed by (name, type) with value (ttl, rdata); a later duplicate key
overwrites an earlier one. -/
def buildZoneMap (recs : List Rec4) : List ((String × String) × (String × String)) :=
  recs.foldl (fun m r => dinsert m (r.1, r.2.2.1) (r.2.1, r.2.2.2)) []

/-- wapi_map (main.py lines 384-391): fold the fetched rows into a dict keyed
by (name, type) with value (row ID, ttl, rdata), normalising name, ttl and
rdata exactly as compare_zone_ns does. -/
def buildWapiMap (rows : List RawRow) :
    List ((String × String) × (Option String × String × String)) :=
  rows.foldl (fun m r =>
    dinsert m (pyOrAt r.name, r.rdtype.getD "")
      (r.ID, r.ttl.getD "", pyRstripDot (r.rdata.getD ""))) []

/-- Step 8 of sync_zone_records (main.py lines 394-415): iterate the local
map; a key absent remotely yields a dns-row-add, a key present with a
differing (ttl, rdata) yields a dns-row-update targeting the stored row ID. -/
def recordEvents (domain : String)
    (zm : List ((String × String) × (String × String)))
    (wm : List ((String × String) × (Option String × String × String))) :
    List Ev :=
  zm.flatMap (fun e =>
    match alookup wm e.1 with
    | none =>
        [.out (.addingRecord e.1.1 e.1.2),
         .call (.rowAdd (addPayload domain e.1.1 e.2.1 e.1.2 e.2.2))]
    | some (rowId, wttl, wrdata) =>
        if e.2.1 ≠ wttl ∨ e.2.2 ≠ wrdata then
          [.out (.updatingRecord e.1.1 e.1.2),
           .call (.rowUpdate (updPayload domain rowId e.2.1 e.2.2))]
        else [])

/-- Step 9 of sync_zone_records (main.py lines 417-427): every remote key
absent locally is only reported; the dns-row-delete call is commented out. -/
def deleteEvents (zm : List ((String × String) × (String × String)))
    (wm : List ((String × String) × (Option String × String × String))) :
    List Ev :=
  wm.flatMap (fun e =>
    match alookup zm e.1 with
    | none => [.out (.disabledDelete e.1.1 e.1.2)]
    | some _ => [])

/-- Steps 4-9 for one .zone file (main.py lines 347-427): parse, create the
domain when it is not in the derived domain set, fetch the rows, and either
reconcile or report the fetch error and move on. -/
def domainEvents (env : Env) (f : FileEnt) : List Ev :=
  [.out (.processing f.stem),
   .out (.localCount (buildZoneMap (parse_zone_file f.stem f.lines)).length)]
  ++ (if f.stem ∈ dnsDomains env then []
      else [.out (.addingDomain f.stem), .call (.domainAdd f.stem)])
  ++ [.call (.rowsList f.stem)]
  ++ (if rowsOk (env.rowsResp f.stem).code then
        .out (.wapiCount
          (buildWapiMap (getRows (env.rowsResp f.stem).rows)).length) ::
          (recordEvents f.stem (buildZoneMap (parse_zone_file f.stem f.lines))
            (buildWapiMap (getRows (env.rowsResp f.stem).rows))
           ++ deleteEvents (buildZoneMap (parse_zone_file f.stem f.lines))
                (buildWapiMap (getRows (env.rowsResp f.stem).rows)))
      else [.out (.rowsError f.stem (env.rowsResp f.stem))])

/-- Directory-entry dispatch (main.py lines 342-345): files without the .zone
suffix are only reported as ignored. -/
def processFile (env : Env) (f : FileEnt) : List Ev :=
  if f.suffix = ".zone" then domainEvents env f
  else [.out (.ignoredFile (f.stem ++ f.suffix))]

/-- A whole run of sync_zone_records (main.py lines 327-428): one
dns-domains-list call, then every directory entry in order, then the final
completion message. -/
def runSyncEvents (env : Env) : List Ev :=
  .call .domainsList :: (env.files.flatMap (processFile env) ++ [.out .syncComplete])

/-- The remote calls of a run, in order. -/
def callsOf (evs : List Ev) : List WapiCall :=
  evs.filterMap (fun e => match e with | .call c => some c | .out _ => none)

/- ----- Trailing-dot and name-resolution lemmas ----- -/

/-- k consecutive dots. -/
def dotStr (k : Nat) : String := ⟨List.replicate k '.'⟩

/- ----- Concrete runs used below ----- -/

/-- Remote row: www CNAME example.com with ttl 600 and row ID 7. -/
def rowWWW600 : RawRow :=
  { name := some "www", ttl := some "600", rdtype := some "CNAME",
    rdata := some "example.com.", ID := some "7" }

/-- The zone file of the update scenario: local www 300 CNAME example.com. -/
def fScn : FileEnt := ⟨"example.com", ".zone", ["www 300 IN CNAME example.com."]⟩

/-- Scenario environment: the domain exists remotely and the remote holds the
same (name, type) key with a different ttl. -/
def envScn : Env :=
  { domainsCode := .s "1000", domainsRecs := [⟨"example.com"⟩],
    rowsResp := fun _ => { code := .s "1000", rows := .list [rowWWW600] },
    addResp := fun _ => .s "1000", updResp := fun _ => .s "1000",
    files := [fScn] }

/-- True exactly on dns-row-add and dns-row-update calls. -/
def isRecordOp : WapiCall → Bool
  | .rowAdd _ => true
  | .rowUpdate _ => true
  | _ => false

/-- True exactly on dns-row-delete calls. -/
def isDeleteOp : WapiCall → Bool
  | .rowDelete _ => true
  | _ => false

/-- Concrete run with a remote-only record: the zone file has no records, the
remote holds one A record. -/
def fDel : FileEnt := ⟨"example.com", ".zone", []⟩

/-- The remote-only A record of the deletion run. -/
def rowOld : RawRow :=
  { name := some "old", ttl := some "300", rdtype := some "A",
    rdata := some "9.9.9.9", ID := some "3" }

/-- Environment of the remote-only record run. -/
def envDel : Env :=
  { domainsCode := .s "1000", domainsRecs := [⟨"example.com"⟩],
    rowsResp := fun _ => { code := .s "1000", rows := .list [rowOld] },
    addResp := fun _ => .s "1000", updResp := fun _ => .s "1000",
    files := [fDel] }

/-- Zone file of the already-converged run. -/
def fIdem : FileEnt := ⟨"example.com", ".zone", ["www 300 IN A 1.2.3.4"]⟩

/-- A remote row equal (after normalisation) to the local www record. -/
def rowWWW300 : RawRow :=
  { name := some "www", ttl := some "300", rdtype := some "A",
    rdata := some "1.2.3.4.", ID := some "9" }

/-- Environment whose remote state already equals the local state. -/
def envIdem : Env :=
  { domainsCode := .s "1000", domainsRecs := [⟨"example.com"⟩],
    rowsResp := fun _ => { code := .s "1000", rows := .list [rowWWW300] },
    addResp := fun _ => .s "1000", updResp := fun _ => .s "1000",
    files := [fIdem] }

/- ----- C7: behaviour on failed add/update calls ----- -/

/-- Two-domain run in which every remote call succeeds. -/
def envOkC7 : Env :=
  { domainsCode := .s "1000", domainsRecs := [⟨"a.com"⟩, ⟨"b.com"⟩],
    rowsResp := fun _ => { code := .s "1000", rows := .list [] },
    addResp := fun _ => .s "1000", updResp := fun _ => .s "1000",
    files := [⟨"a.com", ".zone", ["@ 300 IN A 1.1.1.1", "www 300 IN A 2.2.2.2"]⟩,
              ⟨"b.com", ".zone", ["@ 600 IN TXT hello"]⟩] }

/-- The same run except that every dns-row-add call fails. -/
def envFailC7 : Env := { envOkC7 with addResp := fun _ => .s "2008" }

/- ----- C8: list-shaped and map-shaped row collections ----- -/

/-- Two-domain run whose first domain receives a row payload that is neither
list- nor map-shaped. -/
def env8 : Env :=
  { domainsCode := .s "1000", domainsRecs := [⟨"a.com"⟩, ⟨"b.com"⟩],
    rowsResp := fun d =>
      if d = "a.com" then { code := .s "1000", rows := .other }
      else { code := .s "1000", rows := .list [] },
    addResp := fun _ => .s "1000", updResp := fun _ => .s "1000",
    files := [⟨"a.com", ".zone", ["@ 300 IN A 1.1.1.1"]⟩,
              ⟨"b.com", ".zone", []⟩] }

/- ----- C6: domain-list fetch and create-domain ----- -/

/-- Run in which the provider returns its domain list with the success code
as the integer 1000 — the representation sync_zone_records itself accepts
for dns-rows-list — and the list contains the processed domain. -/
def envC6 : Env :=
  { domainsCode := .i 1000, domainsRecs := [⟨"example.com"⟩],
    rowsResp := fun _ => { code := .s "1000", rows := .list [] },
    addResp := fun _ => .s "1000", updResp := fun _ => .s "1000",
    files := [⟨"example.com", ".zone", []⟩] }

/-- Local record set of the witness: one A record with ttl 300. -/
def zoneC3 : List Rec4 := [("www", "300", "A", "1.1.1.1")]

/-- Remote record set of the witness: the same key with ttl 600. -/
def wapiC3 : List Rec4 := [("www", "600", "A", "1.1.1.1")]

/-- The local-only row of the witness comparison. -/
def rowC3 : ResultRow :=
  { domain := "d", name := "www", ttl := "300", rtype := "A",
    rdata := "1.1.1.1", status := "missing", note := "missing in WAPI" }

/- ----- Association-list (Python dict) lemmas ----- -/

theorem alookup_dinsert_self {K V : Type} [DecidableEq K]
    (m : List (K × V)) (k : K) (v : V) : alookup (dinsert m k v) k = some v := by
  induction m with
  | nil => simp [dinsert, alookup]
  | cons e m ih =>
      obtain ⟨k0, v0⟩ := e
      by_cases h : k = k0
      · simp [dinsert, h, alookup]
      · simp [dinsert, h, alookup, ih]

theorem alookup_dinsert_ne {K V : Type} [DecidableEq K]
    (m : List (K × V)) (k q : K) (v : V) (h : q ≠ k) :
    alookup (dinsert m k v) q = alookup m q := by
  induction m with
  | nil => simp [dinsert, alookup, h]
  | cons e m ih =>
      obtain ⟨k0, v0⟩ := e
      by_cases h0 : k = k0
      · subst h0; simp [dinsert, alookup, h]
      · by_cases hq : q = k0
        · simp [dinsert, h0, alookup, hq]
        · simp [dinsert, h0, alookup, hq, ih]

theorem mem_keysOf_dinsert {K V : Type} [DecidableEq K]
    (m : List (K × V)) (k q : K) (v : V) :
    q ∈ keysOf (dinsert m k v) ↔ q = k ∨ q ∈ keysOf m := by
  induction m with
  | nil => simp [dinsert, keysOf]
  | cons e m ih =>
      obtain ⟨k0, v0⟩ := e
      by_cases h : k = k0
      · subst h; simp [dinsert, keysOf]
      · simp [dinsert, h, keysOf] at ih ⊢
        tauto

theorem nodup_keysOf_dinsert {K V : Type} [DecidableEq K]
    (m : List (K × V)) (k : K) (v : V) (h : (keysOf m).Nodup) :
    (keysOf (dinsert m k v)).Nodup := by
  induction m with
  | nil => simp [dinsert, keysOf]
  | cons e m ih =>
      obtain ⟨k0, v0⟩ := e
      rw [show keysOf ((k0, v0) :: m) = k0 :: keysOf m from rfl,
        List.nodup_cons] at h
      by_cases hk : k = k0
      · rw [show dinsert ((k0, v0) :: m) k v = (k0, v) :: m by simp [dinsert, hk],
          show keysOf ((k0, v) :: m) = k0 :: keysOf m from rfl, List.nodup_cons]
        exact h
      · rw [show dinsert ((k0, v0) :: m) k v = (k0, v0) :: dinsert m k v by
          simp [dinsert, hk]]
        rw [show keysOf ((k0, v0) :: dinsert m k v) =
              k0 :: keysOf (dinsert m k v) from rfl, List.nodup_cons]
        refine ⟨?_, ih h.2⟩
        intro hmem
        rcases (mem_keysOf_dinsert m k k0 v).mp hmem with h1 | h1
        · exact hk h1.symm
        · exact h.1 h1

theorem nodup_keysOf_foldl_dinsert {A K V : Type} [DecidableEq K]
    (key : A → K) (val : A → V) (l : List A) :
    ∀ m, (keysOf m).Nodup →
      (keysOf (l.foldl (fun m a => dinsert m (key a) (val a)) m)).Nodup := by
  induction l with
  | nil => intro m h; simpa using h
  | cons a l ih =>
      intro m h
      exact ih (dinsert m (key a) (val a)) (nodup_keysOf_dinsert m _ _ h)

theorem nodup_keysOf_buildZoneMap (recs : List Rec4) :
    (keysOf (buildZoneMap recs)).Nodup := by
  unfold buildZoneMap
  exact nodup_keysOf_foldl_dinsert (fun r : Rec4 => (r.1, r.2.2.1))
    (fun r : Rec4 => (r.2.1, r.2.2.2)) recs [] (by simp [keysOf])

theorem nodup_keysOf_buildWapiMap (rows : List RawRow) :
    (keysOf (buildWapiMap rows)).Nodup := by
  unfold buildWapiMap
  exact nodup_keysOf_foldl_dinsert
    (fun r : RawRow => (pyOrAt r.name, r.rdtype.getD ""))
    (fun r : RawRow => (r.ID, r.ttl.getD "", pyRstripDot (r.rdata.getD "")))
    rows [] (by simp [keysOf])

theorem mem_of_alookup_eq_some {K V : Type} [DecidableEq K]
    {m : List (K × V)} {q : K} {v : V} (h : alookup m q = some v) : (q, v) ∈ m := by
  induction m with
  | nil => simp [alookup] at h
  | cons e m ih =>
      obtain ⟨k0, v0⟩ := e
      by_cases hq : q = k0
      · subst hq
        simp [alookup] at h
        simp [h]
      · simp [alookup, hq] at h
        exact List.mem_cons_of_mem _ (ih h)

theorem alookup_eq_some_of_mem {K V : Type} [DecidableEq K]
    {m : List (K × V)} {e : K × V} (hn : (keysOf m).Nodup) (h : e ∈ m) :
    alookup m e.1 = some e.2 := by
  induction m with
  | nil => simp at h
  | cons e0 m ih =>
      obtain ⟨k0, v0⟩ := e0
      rw [show keysOf ((k0, v0) :: m) = k0 :: keysOf m from rfl,
        List.nodup_cons] at hn
      rcases List.mem_cons.mp h with he | he
      · subst he; simp [alookup]
      · have hne : e.1 ≠ k0 := by
          intro hx
          exact hn.1 (hx ▸ List.mem_map_of_mem Prod.fst he)
        simp [alookup, hne]
        exact ih hn.2 he

theorem dropWhile_replicate_append {α : Type} (p : α → Bool) (a : α)
    (h : p a = true) (k : Nat) (l : List α) :
    List.dropWhile p (List.replicate k a ++ l) = List.dropWhile p l := by
  induction k with
  | zero => simp
  | succ k ih => simp [List.replicate_succ, List.dropWhile_cons, h, ih]

theorem pyRstripDot_append_dots (s : String) (k : Nat) :
    pyRstripDot (s ++ dotStr k) = pyRstripDot s := by
  have hdata : (s ++ dotStr k).data = s.data ++ List.replicate k '.' := by
    simp [dotStr]
  unfold pyRstripDot
  rw [hdata, List.reverse_append, List.reverse_replicate,
    dropWhile_replicate_append (fun c => c == '.') '.' (by simp) k s.data.reverse]

theorem pyRstripDot_of_no_dot (s : String) (h : strEndsWith s "." = false) :
    pyRstripDot s = s := by
  unfold strEndsWith at h
  unfold pyRstripDot
  cases hr : s.data.reverse with
  | nil =>
      have hnil : s.data = [] := by
        simpa using congrArg List.reverse hr
      obtain ⟨d⟩ := s
      simp at hnil
      subst hnil
      rfl
  | cons c t =>
      rw [hr] at h
      have hc : (c == '.') = false := by
        by_cases hcc : c = '.'
        · subst hcc; simp [List.isPrefixOf] at h
        · simp [hcc]
      have hdw : List.dropWhile (fun x => x == '.') (c :: t) = c :: t := by
        simp [List.dropWhile_cons, hc]
      rw [hdw, ← hr, List.reverse_reverse]

theorem strEndsWith_append_dots (s : String) (k : Nat) :
    strEndsWith (s ++ dotStr (k + 1)) "." = true := by
  unfold strEndsWith
  rw [ List.isPrefixOf_iff_prefix]
  have hdata : (s ++ dotStr (k + 1)).data.reverse =
      '.' :: (List.replicate k '.' ++ s.data.reverse) := by
    rw [String.data_append,
      show (dotStr (k + 1)).data = List.replicate (k + 1) '.' from rfl,
      List.reverse_append, List.reverse_replicate, List.replicate_succ,
      List.cons_append]
  rw [hdata]
  exact ⟨List.replicate k '.' ++ s.data.reverse, rfl⟩

theorem append_dots_ne_at (s : String) (k : Nat) : s ++ dotStr (k + 1) ≠ "@" := by
  intro h
  have hd := congrArg (fun x : String => x.data.reverse) h
  simp only [String.data_append] at hd
  rw [show (dotStr (k + 1)).data = List.replicate (k + 1) '.' from rfl,
    List.reverse_append, List.reverse_replicate, List.replicate_succ] at hd
  simp at hd

theorem resolveName_append_dots (origin s : String) (k : Nat) :
    resolveName origin (s ++ dotStr (k + 1)) = fqdnResolve origin (pyRstripDot s) := by
  unfold resolveName
  rw [if_neg (append_dots_ne_at s k), if_pos (strEndsWith_append_dots s k),
    pyRstripDot_append_dots]

theorem resolveName_at (origin : String) : resolveName origin "@" = "@" := by
  simp [resolveName]

theorem resolveName_no_dot (origin raw : String)
    (h : strEndsWith raw "." = false) : resolveName origin raw = raw := by
  unfold resolveName
  by_cases ha : raw = "@"
  · simp [ha]
  · rw [if_neg ha, h]
    simp

theorem resolveName_single_dot (origin base : String)
    (h : strEndsWith base "." = false) :
    resolveName origin (base ++ ".") =
      (if base = origin then "@"
       else if strEndsWith base ("." ++ origin) = true then
         strTake base (base.length - (origin.length + 1))
       else base) := by
  have h1 : base ++ "." = base ++ dotStr 1 := rfl
  rw [h1, resolveName_append_dots origin base 0, pyRstripDot_of_no_dot base h]
  rfl

theorem resolveName_subdomain (origin X : String)
    (h : strEndsWith (X ++ "." ++ origin) "." = false) :
    resolveName origin (X ++ "." ++ origin ++ ".") = X := by
  rw [resolveName_single_dot origin (X ++ "." ++ origin) h]
  have hne : ¬ (X ++ "." ++ origin = origin) := by
    intro hx
    have hl := congrArg String.length hx
    rw [String.length_append, String.length_append] at hl
    have hdot : String.length "." = 1 := rfl
    omega
  have hsuf : strEndsWith (X ++ "." ++ origin) ("." ++ origin) = true := by
    unfold strEndsWith
    rw [ List.isPrefixOf_iff_prefix]
    simp only [String.data_append, List.reverse_append]
    refine ⟨X.data.reverse, ?_⟩
    rw [List.append_assoc]
  rw [if_neg hne, if_pos hsuf]
  have hlen : (X ++ "." ++ origin).length - (origin.length + 1) = X.length := by
    rw [String.length_append, String.length_append]
    have hdot : String.length "." = 1 := rfl
    omega
  rw [hlen]
  unfold strTake
  have hdata : (X ++ "." ++ origin).data = X.data ++ (['.'] ++ origin.data) := by
    simp [List.append_assoc]
  rw [hdata, show X.length = X.data.length from rfl, List.take_left]

/- ----- Trace lemmas for the Synchronizer ----- -/

theorem mem_callsOf (c : WapiCall) (evs : List Ev) :
    c ∈ callsOf evs ↔ Ev.call c ∈ evs := by
  unfold callsOf
  rw [List.mem_filterMap]
  constructor
  · rintro ⟨e, he, hf⟩
    cases e with
    | call c0 => simp at hf; subst hf; exact he
    | out o => simp at hf
  · intro h; exact ⟨.call c, h, rfl⟩

theorem mem_recordEvents_addCall (d : String)
    (zm : List ((String × String) × (String × String)))
    (wm : List ((String × String) × (Option String × String × String)))
    (p : Payload) :
    Ev.call (.rowAdd p) ∈ recordEvents d zm wm ↔
      ∃ e ∈ zm, alookup wm e.1 = none ∧
        p = addPayload d e.1.1 e.2.1 e.1.2 e.2.2 := by
  unfold recordEvents
  rw [List.mem_flatMap]
  constructor
  · rintro ⟨e, he, hm⟩
    refine ⟨e, he, ?_⟩
    cases hw : alookup wm e.1 with
    | none =>
        rw [hw] at hm
        simp at hm
        exact ⟨rfl, hm⟩
    | some v =>
        obtain ⟨rid, wt, wr⟩ := v
        rw [hw] at hm
        by_cases hd : e.2.1 ≠ wt ∨ e.2.2 ≠ wr
        · simp [hd] at hm
        · simp [hd] at hm
  · rintro ⟨e, he, hw, hp⟩
    refine ⟨e, he, ?_⟩
    subst hp
    rw [hw]
    simp

theorem mem_recordEvents_updCall (d : String)
    (zm : List ((String × String) × (String × String)))
    (wm : List ((String × String) × (Option String × String × String)))
    (p : Payload) :
    Ev.call (.rowUpdate p) ∈ recordEvents d zm wm ↔
      ∃ e ∈ zm, ∃ rid wttl wrdata,
        alookup wm e.1 = some (rid, wttl, wrdata) ∧
        (e.2.1 ≠ wttl ∨ e.2.2 ≠ wrdata) ∧
        p = updPayload d rid e.2.1 e.2.2 := by
  unfold recordEvents
  rw [List.mem_flatMap]
  constructor
  · rintro ⟨e, he, hm⟩
    refine ⟨e, he, ?_⟩
    cases hw : alookup wm e.1 with
    | none => rw [hw] at hm; simp at hm
    | some v =>
        obtain ⟨rid, wt, wr⟩ := v
        rw [hw] at hm
        by_cases hd : e.2.1 ≠ wt ∨ e.2.2 ≠ wr
        · simp [hd] at hm
          exact ⟨rid, wt, wr, rfl, hd, hm⟩
        · simp [hd] at hm
  · rintro ⟨e, he, rid, wt, wr, hw, hd, hp⟩
    refine ⟨e, he, ?_⟩
    subst hp
    rw [hw]
    simp [hd]

theorem recordEvents_call_shapes (d : String)
    (zm : List ((String × String) × (String × String)))
    (wm : List ((String × String) × (Option String × String × String)))
    (c : WapiCall) (hc : Ev.call c ∈ recordEvents d zm wm) :
    (∃ n t ty rd, c = .rowAdd (addPayload d n t ty rd)) ∨
    (∃ rid t rd, c = .rowUpdate (updPayload d rid t rd)) := by
  unfold recordEvents at hc
  rw [List.mem_flatMap] at hc
  obtain ⟨e, he, hm⟩ := hc
  cases hw : alookup wm e.1 with
  | none =>
      rw [hw] at hm
      simp at hm
      exact Or.inl ⟨e.1.1, e.2.1, e.1.2, e.2.2, hm⟩
  | some v =>
      obtain ⟨rid, wt, wr⟩ := v
      rw [hw] at hm
      by_cases hd : e.2.1 ≠ wt ∨ e.2.2 ≠ wr
      · simp [hd] at hm
        exact Or.inr ⟨rid, e.2.1, e.2.2, hm⟩
      · simp [hd] at hm

theorem recordEvents_eq_nil (d : String)
    (zm : List ((String × String) × (String × String)))
    (wm : List ((String × String) × (Option String × String × String)))
    (h : ∀ e ∈ zm, ∃ rid, alookup wm e.1 = some (rid, e.2.1, e.2.2)) :
    recordEvents d zm wm = [] := by
  unfold recordEvents
  rw [List.flatMap_eq_nil_iff]
  intro e he
  obtain ⟨rid, hw⟩ := h e he
  rw [hw]
  simp

theorem callsOf_deleteEvents
    (zm : List ((String × String) × (String × String)))
    (wm : List ((String × String) × (Option String × String × String))) :
    callsOf (deleteEvents zm wm) = [] := by
  unfold callsOf
  rw [List.filterMap_eq_nil_iff]
  intro e he
  unfold deleteEvents at he
  rw [List.mem_flatMap] at he
  obtain ⟨x, hx, hm⟩ := he
  cases hz : alookup zm x.1 with
  | none => rw [hz] at hm; simp at hm; subst hm; rfl
  | some v => rw [hz] at hm; simp at hm

theorem mem_deleteEvents
    (zm : List ((String × String) × (String × String)))
    (wm : List ((String × String) × (Option String × String × String)))
    (k : String × String) (w : Option String × String × String)
    (hw : alookup wm k = some w) (hz : alookup zm k = none) :
    Ev.out (.disabledDelete k.1 k.2) ∈ deleteEvents zm wm := by
  unfold deleteEvents
  rw [List.mem_flatMap]
  refine ⟨(k, w), mem_of_alookup_eq_some hw, ?_⟩
  rw [show ((k, w) : (String × String) × (Option String × String × String)).1 = k
    from rfl, hz]
  simp

theorem callsOf_domainEvents (env : Env) (f : FileEnt) :
    callsOf (domainEvents env f) =
      (if f.stem ∈ dnsDomains env then [] else [.domainAdd f.stem]) ++
      .rowsList f.stem ::
        (if rowsOk (env.rowsResp f.stem).code then
           callsOf (recordEvents f.stem
             (buildZoneMap (parse_zone_file f.stem f.lines))
             (buildWapiMap (getRows (env.rowsResp f.stem).rows)))
         else []) := by
  unfold domainEvents
  by_cases h1 : f.stem ∈ dnsDomains env <;>
    by_cases h2 : rowsOk (env.rowsResp f.stem).code <;>
      simp [h1, h2, callsOf, List.filterMap_append,
        show ∀ zm wm, List.filterMap
          (fun e => match e with | .call c => some c | .out _ => none)
          (deleteEvents zm wm) = [] from fun zm wm => callsOf_deleteEvents zm wm]

theorem processFile_call_shapes (env : Env) (f : FileEnt) (c : WapiCall)
    (hc : c ∈ callsOf (processFile env f)) :
    c = .domainAdd f.stem ∨ c = .rowsList f.stem ∨
    (∃ n t ty rd, c = .rowAdd (addPayload f.stem n t ty rd)) ∨
    (∃ rid t rd, c = .rowUpdate (updPayload f.stem rid t rd)) := by
  unfold processFile at hc
  by_cases hs : f.suffix = ".zone"
  · rw [if_pos hs, callsOf_domainEvents] at hc
    rw [List.mem_append] at hc
    rcases hc with hc | hc
    · by_cases h1 : f.stem ∈ dnsDomains env
      · rw [if_pos h1] at hc; simp at hc
      · rw [if_neg h1] at hc
        simp at hc
        exact Or.inl hc
    · rcases List.mem_cons.mp hc with hc | hc
      · exact Or.inr (Or.inl hc)
      · by_cases h2 : rowsOk (env.rowsResp f.stem).code
        · rw [if_pos h2] at hc
          rcases recordEvents_call_shapes _ _ _ c ((mem_callsOf c _).mp hc) with
            h | h
          · exact Or.inr (Or.inr (Or.inl h))
          · exact Or.inr (Or.inr (Or.inr h))
        · rw [if_neg h2] at hc; simp at hc
  · rw [if_neg hs] at hc
    simp [callsOf] at hc

theorem callsOf_runSync (env : Env) :
    callsOf (runSyncEvents env) =
      .domainsList :: callsOf (env.files.flatMap (processFile env)) := by
  unfold runSyncEvents callsOf
  simp

theorem mem_calls_runSync (env : Env) (c : WapiCall) :
    c ∈ callsOf (runSyncEvents env) ↔
      c = .domainsList ∨ ∃ f ∈ env.files, Ev.call c ∈ processFile env f := by
  rw [callsOf_runSync, List.mem_cons]
  constructor
  · rintro (h | h)
    · exact Or.inl h
    · rw [mem_callsOf, List.mem_flatMap] at h
      exact Or.inr h
  · rintro (h | h)
    · exact Or.inl h
    · refine Or.inr ?_
      rw [mem_callsOf, List.mem_flatMap]
      exact h

theorem count_domainsList_runSync (env : Env) :
    (callsOf (runSyncEvents env)).count WapiCall.domainsList = 1 := by
  rw [callsOf_runSync, List.count_cons_self]
  have h : WapiCall.domainsList ∉ callsOf (env.files.flatMap (processFile env)) := by
    intro hmem
    rw [mem_callsOf, List.mem_flatMap] at hmem
    obtain ⟨f, hf, hm⟩ := hmem
    rcases processFile_call_shapes env f _ ((mem_callsOf _ _).mpr hm) with
      h | h | ⟨n, t, ty, rd, h⟩ | ⟨rid, t, rd, h⟩ <;> simp at h
  rw [List.count_eq_zero.mpr h]

theorem mem_calls_domainEvents_add (env : Env) (f : FileEnt)
    (hok : rowsOk (env.rowsResp f.stem).code) (p : Payload) :
    WapiCall.rowAdd p ∈ callsOf (domainEvents env f) ↔
      Ev.call (.rowAdd p) ∈ recordEvents f.stem
        (buildZoneMap (parse_zone_file f.stem f.lines))
        (buildWapiMap (getRows (env.rowsResp f.stem).rows)) := by
  rw [callsOf_domainEvents, List.mem_append, List.mem_cons]
  constructor
  · rintro (h | h | h)
    · exfalso
      by_cases h1 : f.stem ∈ dnsDomains env
      · rw [if_pos h1] at h; simp at h
      · rw [if_neg h1] at h; simp at h
    · exfalso; simp at h
    · rw [if_pos hok] at h
      exact (mem_callsOf _ _).mp h
  · intro h
    refine Or.inr (Or.inr ?_)
    rw [if_pos hok]
    exact (mem_callsOf _ _).mpr h

theorem mem_calls_domainEvents_upd (env : Env) (f : FileEnt)
    (hok : rowsOk (env.rowsResp f.stem).code) (p : Payload) :
    WapiCall.rowUpdate p ∈ callsOf (domainEvents env f) ↔
      Ev.call (.rowUpdate p) ∈ recordEvents f.stem
        (buildZoneMap (parse_zone_file f.stem f.lines))
        (buildWapiMap (getRows (env.rowsResp f.stem).rows)) := by
  rw [callsOf_domainEvents, List.mem_append, List.mem_cons]
  constructor
  · rintro (h | h | h)
    · exfalso
      by_cases h1 : f.stem ∈ dnsDomains env
      · rw [if_pos h1] at h; simp at h
      · rw [if_neg h1] at h; simp at h
    · exfalso; simp at h
    · rw [if_pos hok] at h
      exact (mem_callsOf _ _).mp h
  · intro h
    refine Or.inr (Or.inr ?_)
    rw [if_pos hok]
    exact (mem_callsOf _ _).mpr h

/-- Claim C1: for a domain whose remote record map was fetched successfully,
an add-record operation is issued exactly for each local (name, type) key
absent from the remote map, carrying the local ttl and rdata; an
update-record operation is issued exactly for each local key present
remotely with a differing (ttl, rdata), carrying the local ttl and rdata
and targeting the stored remote row identifier; and in the scenario where
the remote holds the same key with only a different ttl, the run issues
exactly one update and zero add or delete calls. -/
theorem c1_add_update_exact (env : Env) (f : FileEnt)
    (hok : rowsOk (env.rowsResp f.stem).code) :
    (∀ nm ty t rd,
      WapiCall.rowAdd (addPayload f.stem nm t ty rd) ∈ callsOf (domainEvents env f) ↔
        alookup (buildZoneMap (parse_zone_file f.stem f.lines)) (nm, ty) =
          some (t, rd) ∧
        alookup (buildWapiMap (getRows (env.rowsResp f.stem).rows)) (nm, ty) =
          none) ∧
    (∀ nm ty t rd rid wttl wrdata,
      alookup (buildZoneMap (parse_zone_file f.stem f.lines)) (nm, ty) =
        some (t, rd) →
      alookup (buildWapiMap (getRows (env.rowsResp f.stem).rows)) (nm, ty) =
        some (rid, wttl, wrdata) →
      (t ≠ wttl ∨ rd ≠ wrdata) →
      WapiCall.rowUpdate (updPayload f.stem rid t rd) ∈
        callsOf (domainEvents env f)) ∧
    (∀ p, WapiCall.rowUpdate p ∈ callsOf (domainEvents env f) →
      ∃ nm ty t rd rid wttl wrdata,
        alookup (buildZoneMap (parse_zone_file f.stem f.lines)) (nm, ty) =
          some (t, rd) ∧
        alookup (buildWapiMap (getRows (env.rowsResp f.stem).rows)) (nm, ty) =
          some (rid, wttl, wrdata) ∧
        (t ≠ wttl ∨ rd ≠ wrdata) ∧ p = updPayload f.stem rid t rd) ∧
    callsOf (domainEvents envScn fScn) =
      [.rowsList "example.com",
       .rowUpdate (updPayload "example.com" (some "7") "300" "example.com")] := by
  have hnz := nodup_keysOf_buildZoneMap (parse_zone_file f.stem f.lines)
  refine ⟨?_, ?_, ?_, by rfl⟩
  · intro nm ty t rd
    rw [mem_calls_domainEvents_add env f hok, mem_recordEvents_addCall]
    constructor
    · rintro ⟨e, he, hw, hp⟩
      have hcomp : nm = e.1.1 ∧ t = e.2.1 ∧ ty = e.1.2 ∧ rd = e.2.2 := by
        simpa [addPayload] using hp
      obtain ⟨h1, h2, h3, h4⟩ := hcomp
      have he1 : e.1 = (nm, ty) := by
        obtain ⟨⟨a, b⟩, c, dd⟩ := e
        simp at h1 h2 h3 h4 ⊢
        exact ⟨h1.symm, h3.symm⟩
      have he2 : e.2 = (t, rd) := by
        obtain ⟨⟨a, b⟩, c, dd⟩ := e
        simp at h1 h2 h3 h4 ⊢
        exact ⟨h2.symm, h4.symm⟩
      constructor
      · rw [← he1, ← he2]
        exact alookup_eq_some_of_mem hnz he
      · rw [← he1]; exact hw
    · rintro ⟨hz, hw⟩
      exact ⟨((nm, ty), (t, rd)), mem_of_alookup_eq_some hz, hw, rfl⟩
  · intro nm ty t rd rid wttl wrdata hz hw hd
    rw [mem_calls_domainEvents_upd env f hok, mem_recordEvents_updCall]
    exact ⟨((nm, ty), (t, rd)), mem_of_alookup_eq_some hz, rid, wttl, wrdata,
      hw, hd, rfl⟩
  · intro p hp
    rw [mem_calls_domainEvents_upd env f hok, mem_recordEvents_updCall] at hp
    obtain ⟨e, he, rid, wttl, wrdata, hw, hd, hpp⟩ := hp
    exact ⟨e.1.1, e.1.2, e.2.1, e.2.2, rid, wttl, wrdata,
      by rw [show ((e.1.1, e.1.2) : String × String) = e.1 from rfl]
         exact alookup_eq_some_of_mem hnz he,
      by rw [show ((e.1.1, e.1.2) : String × String) = e.1 from rfl]; exact hw,
      hd, hpp⟩

/-- Witness for C1 at the concrete scenario environment. -/
theorem c1_witness :
    WapiCall.rowUpdate (updPayload "example.com" (some "7") "300" "example.com") ∈
      callsOf (domainEvents envScn fScn) :=
  (c1_add_update_exact envScn fScn (by decide)).2.1 "www" "CNAME" "300"
    "example.com" (some "7") "600" "example.com" (by decide) (by decide) (by decide)

theorem mem_domainEvents_of_mem_deleteEvents (env : Env) (f : FileEnt)
    (hok : rowsOk (env.rowsResp f.stem).code) (ev : Ev)
    (h : ev ∈ deleteEvents (buildZoneMap (parse_zone_file f.stem f.lines))
      (buildWapiMap (getRows (env.rowsResp f.stem).rows))) :
    ev ∈ domainEvents env f := by
  unfold domainEvents
  rw [if_pos hok]
  simp only [List.mem_append, List.mem_cons]
  tauto

/-- Claim C2: a remote (name, type) key absent locally yields a reported
deletion candidate, and no dns-row-delete call occurs anywhere in the
remote calls of the run. -/
theorem c2_deletion_safety (env : Env) (f : FileEnt) (nm ty : String)
    (hf : f ∈ env.files) (hs : f.suffix = ".zone")
    (hok : rowsOk (env.rowsResp f.stem).code)
    (hrem : (alookup (buildWapiMap (getRows (env.rowsResp f.stem).rows))
      (nm, ty)).isSome = true)
    (hloc : alookup (buildZoneMap (parse_zone_file f.stem f.lines)) (nm, ty) =
      none) :
    Ev.out (.disabledDelete nm ty) ∈ runSyncEvents env ∧
    (callsOf (runSyncEvents env)).filter isDeleteOp = [] := by
  constructor
  · obtain ⟨w, hw⟩ := Option.isSome_iff_exists.mp hrem
    have hdom := mem_domainEvents_of_mem_deleteEvents env f hok _
      (mem_deleteEvents _ _ (nm, ty) w hw hloc)
    unfold runSyncEvents
    rw [List.mem_cons, List.mem_append, List.mem_flatMap]
    refine Or.inr (Or.inl ⟨f, hf, ?_⟩)
    unfold processFile
    rw [if_pos hs]
    exact hdom
  · rw [List.filter_eq_nil_iff]
    intro c hc
    rcases (mem_calls_runSync env c).mp hc with h | ⟨g, hg, hm⟩
    · subst h; simp [isDeleteOp]
    · rcases processFile_call_shapes env g c ((mem_callsOf _ _).mpr hm) with
        h | h | ⟨n1, t1, ty1, rd1, h⟩ | ⟨rid1, t1, rd1, h⟩ <;> subst h <;>
        simp [isDeleteOp]

/-- Witness for C2 at the remote-only record environment. -/
theorem c2_witness :
    Ev.out (.disabledDelete "old" "A") ∈ runSyncEvents envDel ∧
    (callsOf (runSyncEvents envDel)).filter isDeleteOp = [] :=
  c2_deletion_safety envDel fDel "old" "A" (by decide) (by decide) (by decide)
    (by decide) (by decide)

/-- Claim C5: when every local (name, type) key is present remotely with an
equal (ttl, rdata) value, the run issues zero dns-row-add and zero
dns-row-update calls for that domain. -/
theorem c5_idempotent (env : Env) (f : FileEnt)
    (hok : rowsOk (env.rowsResp f.stem).code)
    (hagree : ∀ e ∈ buildZoneMap (parse_zone_file f.stem f.lines),
      (alookup (buildWapiMap (getRows (env.rowsResp f.stem).rows)) e.1).map
        Prod.snd = some e.2) :
    (callsOf (domainEvents env f)).filter isRecordOp = [] := by
  have hnil : recordEvents f.stem
      (buildZoneMap (parse_zone_file f.stem f.lines))
      (buildWapiMap (getRows (env.rowsResp f.stem).rows)) = [] := by
    refine recordEvents_eq_nil _ _ _ ?_
    intro e he
    have h := hagree e he
    cases hw : alookup (buildWapiMap (getRows (env.rowsResp f.stem).rows)) e.1 with
    | none => rw [hw] at h; simp at h
    | some w =>
        obtain ⟨rid, wv⟩ := w
        rw [hw] at h
        simp at h
        exact ⟨rid, by rw [h]⟩
  rw [callsOf_domainEvents, if_pos hok, hnil]
  by_cases h1 : f.stem ∈ dnsDomains env <;> simp [h1, callsOf, isRecordOp]

/-- Witness for C5 at the already-converged environment. -/
theorem c5_witness : (callsOf (domainEvents envIdem fIdem)).filter isRecordOp = [] :=
  c5_idempotent envIdem fIdem (by decide) (by decide)

/-- Claim C4: the parser resolves the name field of a record as follows: an at
sign stays as is; a fully-qualified name (trailing dot) is stripped of the
dot and then becomes the at sign when it equals the origin, becomes the
relative label X when it has the form X.origin, and otherwise stays the
bare dotted name; a name without a trailing dot passes through unchanged.
The two spec examples parse to name www and name at-sign respectively. -/
theorem c4_name_resolution :
    (∀ origin : String, resolveName origin "@" = "@") ∧
    (∀ origin raw : String, strEndsWith raw "." = false →
      resolveName origin raw = raw) ∧
    (∀ origin base : String, strEndsWith base "." = false →
      resolveName origin (base ++ ".") =
        (if base = origin then "@"
         else if strEndsWith base ("." ++ origin) = true then
           strTake base (base.length - (origin.length + 1))
         else base)) ∧
    (∀ origin X : String, strEndsWith (X ++ "." ++ origin) "." = false →
      resolveName origin (X ++ "." ++ origin ++ ".") = X) ∧
    parse_zone_file "example.com" ["www.example.com. 3600 IN A 1.2.3.4"] =
      [("www", "3600", "A", "1.2.3.4")] ∧
    parse_zone_file "example.com" ["example.com. 3600 IN A 1.2.3.4"] =
      [("@", "3600", "A", "1.2.3.4")] :=
  ⟨resolveName_at, resolveName_no_dot, resolveName_single_dot,
   resolveName_subdomain, by rfl, by rfl⟩

/-- Witness for C4: the subdomain case at the example of the spec. -/
theorem c4_witness :
    resolveName "example.com" ("www" ++ "." ++ "example.com" ++ ".") = "www" :=
  c4_name_resolution.2.2.2.1 "example.com" "www" (by decide)

/-- Claim C9: rstrip removes every consecutive trailing dot, so rdata values
and fully-qualified names that differ only in their number of trailing
dots normalise identically; in particular 1.2.3.4. and 1.2.3.4.. both
normalise to 1.2.3.4. -/
theorem c9_trailing_dots :
    (∀ (s : String) (k : Nat), pyRstripDot (s ++ dotStr k) = pyRstripDot s) ∧
    (∀ (origin s : String) (k1 k2 : Nat),
      resolveName origin (s ++ dotStr (k1 + 1)) =
        resolveName origin (s ++ dotStr (k2 + 1))) ∧
    (∀ (r : RawRow) (s : String) (k : Nat),
      normRemote { r with rdata := some (s ++ dotStr k) } =
        normRemote { r with rdata := some s }) ∧
    pyRstripDot "1.2.3.4." = "1.2.3.4" ∧ pyRstripDot "1.2.3.4.." = "1.2.3.4" :=
  ⟨pyRstripDot_append_dots,
   fun origin s k1 k2 => by
     rw [resolveName_append_dots, resolveName_append_dots],
   fun r s k => by
     unfold normRemote
     simp [pyRstripDot_append_dots],
   by rfl, by rfl⟩

/-- Claim C10: every dns-row-update payload carries exactly the fields
domain, row_id, ttl and rdata, and never a name or type field, so an
update call cannot change the (name, type) identity of the targeted row. -/
theorem c10_update_frame (env : Env) (p : Payload)
    (h : WapiCall.rowUpdate p ∈ callsOf (runSyncEvents env)) :
    p.map Prod.fst = ["domain", "row_id", "ttl", "rdata"] ∧
    "name" ∉ p.map Prod.fst ∧ "type" ∉ p.map Prod.fst := by
  rcases (mem_calls_runSync env _).mp h with h0 | ⟨f, hf, hm⟩
  · exact absurd h0 (by simp)
  · rcases processFile_call_shapes env f _ ((mem_callsOf _ _).mpr hm) with
      h0 | h0 | ⟨n1, t1, ty1, rd1, h0⟩ | ⟨rid1, t1, rd1, h0⟩
    · exact absurd h0 (by simp)
    · exact absurd h0 (by simp)
    · exact absurd h0 (by simp)
    · have hp : p = updPayload f.stem rid1 t1 rd1 := by
        simpa using h0
      subst hp
      refine ⟨rfl, by simp [updPayload], by simp [updPayload]⟩

/-- Witness for C10 at the concrete scenario run. -/
theorem c10_witness :
    (updPayload "example.com" (some "7") "300" "example.com").map Prod.fst =
      ["domain", "row_id", "ttl", "rdata"] ∧
    "name" ∉ (updPayload "example.com" (some "7") "300" "example.com").map
      Prod.fst ∧
    "type" ∉ (updPayload "example.com" (some "7") "300" "example.com").map
      Prod.fst :=
  c10_update_frame envScn (updPayload "example.com" (some "7") "300" "example.com")
    (by decide)

/-- Counterexample to C7 as stated: a dns-row-add call is issued and fails
(its response differs from the one of the successful run), yet the whole
event trace of the run — every remote call and every printed line — is
identical to that of the successful run, so the failure is not surfaced to
the operator. -/
theorem c7_counterexample :
    envFailC7.addResp (addPayload "a.com" "@" "300" "A" "1.1.1.1") ≠
      envOkC7.addResp (addPayload "a.com" "@" "300" "A" "1.1.1.1") ∧
    WapiCall.rowAdd (addPayload "a.com" "@" "300" "A" "1.1.1.1") ∈
      callsOf (runSyncEvents envFailC7) ∧
    runSyncEvents envFailC7 = runSyncEvents envOkC7 := by
  refine ⟨by decide, by decide, by decide⟩

/-- Claim C7 as amended: a failed dns-row-add or dns-row-update call is not
retried and processing continues to the next record and next domain — the
event trace of the run does not depend on the responses to those calls
(so a record failure can never abort the run), but for the same reason the
failure is discarded rather than surfaced. -/
theorem c7_amended :
    (∀ (env : Env) (a u : Payload → Code),
      runSyncEvents { env with addResp := a, updResp := u } =
        runSyncEvents env) ∧
    (callsOf (runSyncEvents envFailC7)).count
      (.rowAdd (addPayload "a.com" "@" "300" "A" "1.1.1.1")) = 1 ∧
    WapiCall.rowAdd (addPayload "a.com" "www" "300" "A" "2.2.2.2") ∈
      callsOf (runSyncEvents envFailC7) ∧
    WapiCall.rowAdd (addPayload "b.com" "@" "600" "TXT" "hello") ∈
      callsOf (runSyncEvents envFailC7) := by
  refine ⟨fun env a u => rfl, by decide, by decide, by decide⟩

/-- Claim C8: the shared shape normalisation yields the same record sequence
for a map-shaped collection as for the list of its values (keys dropped),
a payload of any other shape is an empty record set, and — concretely — a
domain whose payload has an unexpected shape is reconciled against the
empty record set while the run continues to the next domain. -/
theorem c8_row_shapes :
    (∀ kvs : List (String × RawRow),
      getRows (RowField.map kvs) = getRows (RowField.list (kvs.map Prod.snd))) ∧
    getRows (RowField.other : RowField RawRow) = [] ∧
    buildWapiMap (getRows (RowField.other : RowField RawRow)) = [] ∧
    (getRows (RowField.other : RowField RawRow)).map normRemote = [] ∧
    runSyncEvents env8 =
      [.call .domainsList,
       .out (.processing "a.com"), .out (.localCount 1),
       .call (.rowsList "a.com"), .out (.wapiCount 0),
       .out (.addingRecord "@" "A"),
       .call (.rowAdd (addPayload "a.com" "@" "300" "A" "1.1.1.1")),
       .out (.processing "b.com"), .out (.localCount 0),
       .call (.rowsList "b.com"), .out (.wapiCount 0),
       .out .syncComplete] :=
  ⟨fun kvs => rfl, rfl, rfl, rfl, by rfl⟩

/-- Counterexample to C6 as stated: example.com is present in the domain
list returned by the provider, yet the run issues a create-domain call for it,
because the domains-list handler recognises only the string "1000" as
success while the rows handler accepts the integer 1000 as well. -/
theorem c6_counterexample :
    "example.com" ∈ envC6.domainsRecs.map DomainRec.name ∧
    WapiCall.domainAdd "example.com" ∈ callsOf (runSyncEvents envC6) := by
  refine ⟨by decide, by decide⟩

/-- Claim C6 as amended: the domain list is fetched exactly once per run; a
create-domain call is issued for a domain iff a .zone file of that stem
exists and the domain is absent from the set derived from the domains-list
response (the returned names when the response code is exactly the string
"1000", the empty set otherwise); and within a domain the create-domain
call precedes the rows fetch and every record operation. -/
theorem c6_amended :
    (∀ env : Env,
      (callsOf (runSyncEvents env)).count WapiCall.domainsList = 1) ∧
    (∀ (env : Env) (d : String),
      WapiCall.domainAdd d ∈ callsOf (runSyncEvents env) ↔
        ∃ f ∈ env.files, f.suffix = ".zone" ∧ f.stem = d ∧
          d ∉ dnsDomains env) ∧
    (∀ (env : Env) (f : FileEnt), f.suffix = ".zone" →
      ∃ rest, callsOf (processFile env f) =
        (if f.stem ∈ dnsDomains env then [] else [.domainAdd f.stem]) ++
          .rowsList f.stem :: rest ∧
        ∀ c ∈ rest, isRecordOp c = true) := by
  refine ⟨count_domainsList_runSync, ?_, ?_⟩
  · intro env d
    constructor
    · intro h
      rcases (mem_calls_runSync env _).mp h with h0 | ⟨f, hf, hm⟩
      · exact absurd h0 (by simp)
      · refine ⟨f, hf, ?_⟩
        unfold processFile at hm
        by_cases hs : f.suffix = ".zone"
        · rw [if_pos hs] at hm
          refine ⟨hs, ?_⟩
          have hc := (mem_callsOf _ _).mpr hm
          rw [callsOf_domainEvents, List.mem_append, List.mem_cons] at hc
          rcases hc with hc | hc | hc
          · by_cases h1 : f.stem ∈ dnsDomains env
            · rw [if_pos h1] at hc; simp at hc
            · rw [if_neg h1] at hc
              simp at hc
              exact ⟨hc.symm, hc ▸ h1⟩
          · exact absurd hc (by simp)
          · by_cases h2 : rowsOk (env.rowsResp f.stem).code
            · rw [if_pos h2] at hc
              rcases recordEvents_call_shapes _ _ _ _
                ((mem_callsOf _ _).mp hc) with ⟨n, t, ty, rd, h0⟩ | ⟨r, t, rd, h0⟩
              · exact absurd h0 (by simp)
              · exact absurd h0 (by simp)
            · rw [if_neg h2] at hc; simp at hc
        · rw [if_neg hs] at hm; simp at hm
    · rintro ⟨f, hf, hs, hd, hnd⟩
      refine (mem_calls_runSync env _).mpr (Or.inr ⟨f, hf, ?_⟩)
      unfold processFile
      rw [if_pos hs]
      refine (mem_callsOf _ _).mp ?_
      rw [callsOf_domainEvents, List.mem_append]
      refine Or.inl ?_
      rw [hd, if_neg hnd]
      simp
  · intro env f hs
    refine ⟨if rowsOk (env.rowsResp f.stem).code then
        callsOf (recordEvents f.stem
          (buildZoneMap (parse_zone_file f.stem f.lines))
          (buildWapiMap (getRows (env.rowsResp f.stem).rows)))
      else [], ?_, ?_⟩
    · unfold processFile
      rw [if_pos hs, callsOf_domainEvents]
    · intro c hc
      by_cases h2 : rowsOk (env.rowsResp f.stem).code
      · rw [if_pos h2] at hc
        rcases recordEvents_call_shapes _ _ _ _
          ((mem_callsOf _ _).mp hc) with ⟨n, t, ty, rd, h0⟩ | ⟨r, t, rd, h0⟩ <;>
          subst h0 <;> rfl
      · rw [if_neg h2] at hc; simp at hc

/-- Witness for C6 (amended) at the scenario environment. -/
theorem c6_witness :
    ∃ rest, callsOf (processFile envScn fScn) =
      (if fScn.stem ∈ dnsDomains envScn then [] else [.domainAdd fScn.stem]) ++
        .rowsList fScn.stem :: rest ∧
      ∀ c ∈ rest, isRecordOp c = true :=
  c6_amended.2.2 envScn fScn (by decide)

/- ----- C3: the three-way partition of the Differ ----- -/

theorem classify_iffs (zone wapi : List Rec4) (r : Rec4)
    (hmem : r ∈ zone ∨ r ∈ wapi) :
    ((classifyStatus zone wapi r).1 = "matching" ↔ r ∈ zone ∧ r ∈ wapi) ∧
    ((classifyStatus zone wapi r).1 = "missing" ↔ r ∈ zone ∧ r ∉ wapi) ∧
    ((classifyStatus zone wapi r).1 = "difference" ↔ r ∉ zone ∧ r ∈ wapi) := by
  unfold classifyStatus
  by_cases hz : r ∈ zone <;> by_cases hw : r ∈ wapi
  · rw [if_pos ⟨hz, hw⟩]
    exact ⟨⟨fun _ => ⟨hz, hw⟩, fun _ => rfl⟩,
           ⟨fun h => absurd h (by decide), fun h => absurd hw h.2⟩,
           ⟨fun h => absurd h (by decide), fun h => absurd hz h.1⟩⟩
  · rw [if_neg (fun hx => hw hx.2), if_pos hz]
    exact ⟨⟨fun h => absurd h (by decide), fun h => absurd h.2 hw⟩,
           ⟨fun _ => ⟨hz, hw⟩, fun _ => rfl⟩,
           ⟨fun h => absurd h (by decide), fun h => absurd hz h.1⟩⟩
  · rw [if_neg (fun hx => hz hx.1), if_neg hz]
    exact ⟨⟨fun h => absurd h (by decide), fun h => absurd h.1 hz⟩,
           ⟨fun h => absurd h (by decide), fun h => absurd h.1 hz⟩,
           ⟨fun _ => ⟨hz, hw⟩, fun _ => rfl⟩⟩
  · rcases hmem with h | h
    · exact absurd h hz
    · exact absurd h hw

theorem countP_eq_of_nodup {α : Type} [DecidableEq α] (l : List α)
    (hl : l.Nodup) (r : α) :
    l.countP (fun x => decide (x = r)) = if r ∈ l then 1 else 0 := by
  induction l with
  | nil => simp
  | cons a l ih =>
      rcases List.nodup_cons.mp hl with ⟨ha, hl2⟩
      rw [List.countP_cons]
      by_cases hr : a = r
      · subst hr
        rw [ih hl2, if_pos (List.mem_cons_self a l), if_neg ha]
        simp
      · have hd : decide (a = r) = false := decide_eq_false hr
        have hiff : (r ∈ a :: l) ↔ r ∈ l := by
          rw [List.mem_cons]
          constructor
          · rintro (h | h)
            · exact absurd h.symm hr
            · exact h
          · exact Or.inr
        rw [ih hl2, hd]
        simp [hiff]

/-- Claim C3: for any local and remote record sequences of one domain, the
Differ emits exactly one row per tuple of the deduplicated union, the rows
are sorted by the natural ordering of the tuple (name, then ttl, then
type, then rdata), and the status of each row is matching iff the tuple is in
both sets, local-only (missing) iff only local, and remote-only
(difference) iff only remote — so the three classes are pairwise disjoint
and cover the union. -/
theorem c3_diff_partition (d : String) (zone wapi : List Rec4) :
    (∀ r : Rec4, ((compare_zone_rows d zone wapi).map rowTuple).countP
        (fun x => decide (x = r)) =
        if r ∈ zone ∨ r ∈ wapi then 1 else 0) ∧
    List.Sorted (fun a b => recLe (rowTuple a) (rowTuple b))
      (compare_zone_rows d zone wapi) ∧
    (∀ row ∈ compare_zone_rows d zone wapi,
      (row.status = "matching" ↔ rowTuple row ∈ zone ∧ rowTuple row ∈ wapi) ∧
      (row.status = "missing" ↔ rowTuple row ∈ zone ∧ rowTuple row ∉ wapi) ∧
      (row.status = "difference" ↔ rowTuple row ∉ zone ∧ rowTuple row ∈ wapi)) := by
  have hmap : (compare_zone_rows d zone wapi).map rowTuple =
      List.insertionSort recLe ((zone ++ wapi).dedup) := by
    unfold compare_zone_rows
    rw [List.map_map]
    exact List.map_id _
  refine ⟨?_, ?_, ?_⟩
  · intro r
    rw [hmap,
      show (List.insertionSort recLe ((zone ++ wapi).dedup)).countP
          (fun x => decide (x = r)) =
        ((zone ++ wapi).dedup).countP (fun x => decide (x = r)) from
        List.Perm.countP_eq _ (List.perm_insertionSort recLe _),
      countP_eq_of_nodup _ (List.nodup_dedup _) r]
    by_cases h : r ∈ zone ∨ r ∈ wapi
    · rw [if_pos h, if_pos (List.mem_dedup.mpr (List.mem_append.mpr h))]
    · rw [if_neg h,
        if_neg (fun hx => h (List.mem_append.mp (List.mem_dedup.mp hx)))]
  · have hs := List.sorted_insertionSort recLe ((zone ++ wapi).dedup)
    unfold compare_zone_rows
    exact hs.map _ (fun a b hab => hab)
  · intro row hrow
    unfold compare_zone_rows at hrow
    obtain ⟨r, hr, heq⟩ := List.mem_map.mp hrow
    subst heq
    have hmem : r ∈ zone ∨ r ∈ wapi := by
      have hd := ((List.perm_insertionSort recLe _).mem_iff).mp hr
      exact List.mem_append.mp (List.mem_dedup.mp hd)
    exact classify_iffs zone wapi r hmem

/-- Witness for C3 at a concrete comparison. -/
theorem c3_witness :
    (rowC3.status = "matching" ↔
      rowTuple rowC3 ∈ zoneC3 ∧ rowTuple rowC3 ∈ wapiC3) ∧
    (rowC3.status = "missing" ↔
      rowTuple rowC3 ∈ zoneC3 ∧ rowTuple rowC3 ∉ wapiC3) ∧
    (rowC3.status = "difference" ↔
      rowTuple rowC3 ∉ zoneC3 ∧ rowTuple rowC3 ∈ wapiC3) :=
  (c3_diff_partition "d" zoneC3 wapiC3).2.2 rowC3 (by decide)
